import Mathlib

/-!
Verification of the Pica MCP server's request-translation layer.

The definitions below are a shallow embedding of the TypeScript source in
src/src/helpers.ts (pure helpers, the PicaClient methods that the claims
reference) into Lean.  JavaScript objects are modelled as association lists
with last-write-wins insertion (mirroring object spread), JS values as an
inductive type, fallible code as Except, and the network boundary as explicit
parameters carrying the upstream response.
-/

namespace PicaMcp

/-- JS-like runtime values used for request bodies, query params and JSON. -/
inductive JVal where
  | jNull
  | jBool (b : Bool)
  | jNum (n : Int)
  | jStr (s : String)
  | jArr (elems : List JVal)
  | jObj (fields : List (String × JVal))
deriving Repr

/-- Path-variable values: `Record(string, string | number | boolean)` in the
source, plus `null` since `replacePathVariables` explicitly guards for it. -/
inductive PathVar where
  | pvStr (s : String)
  | pvNum (n : Int)
  | pvBool (b : Bool)
  | pvNull
deriving Repr, DecidableEq

/-- Lookup in a JS object modelled as an association list with unique keys:
reads `obj[k]`, `none` meaning the property is absent (undefined). -/
def jsGet (l : List (String × String)) (k : String) : Option String :=
  (l.find? (fun p => p.1 = k)).map (fun p => p.2)

/-- JS object property write `obj[k] = v`: replaces the value in place if the
key exists (JS objects keep first-insertion key order), otherwise appends. -/
def jsSet (l : List (String × String)) (k v : String) : List (String × String) :=
  if l.any (fun p => p.1 = k) then l.map (fun p => if p.1 = k then (k, v) else p)
  else l ++ [(k, v)]

/-- JS object spread merge: `\x7b ...a, ...b \x7d` writes every property of
`b` into a copy of `a`, later writes winning. -/
def jsMerge (a b : List (String × String)) : List (String × String) :=
  b.foldl (fun acc p => jsSet acc p.1 p.2) a

/-- Property lookup for JS objects holding JVal values. -/
def jvGet (l : List (String × JVal)) (k : String) : Option JVal :=
  (l.find? (fun p => p.1 = k)).map (fun p => p.2)

/-- Property write for JS objects holding JVal values. -/
def jvSet (l : List (String × JVal)) (k : String) (v : JVal) : List (String × JVal) :=
  if l.any (fun p => p.1 = k) then l.map (fun p => if p.1 = k then (k, v) else p)
  else l ++ [(k, v)]

/-- ASCII lowercasing of one char, as JS `toLowerCase` acts on the ASCII
method names (GET, POST, ...) compared in the source. -/
def asciiLower (c : Char) : Char :=
  if 65 ≤ c.toNat ∧ c.toNat ≤ 90 then Char.ofNat (c.toNat + 32) else c

/-- `s.toLowerCase()` restricted to ASCII letters. -/
def jsToLower (s : String) : String := String.mk (s.data.map asciiLower)

/-- JS whitespace test for `String.prototype.trim` (space, tab, LF, CR, FF,
vertical tab — the characters that can realistically occur here). -/
def isJsWhitespace (c : Char) : Bool :=
  c = ' ' ∨ c = '\t' ∨ c = '\n' ∨ c = '\r' ∨ c.toNat = 11 ∨ c.toNat = 12

/-- `String.prototype.trim` on a char list: strip whitespace at both ends. -/
def trimChars (l : List Char) : List Char :=
  ((l.dropWhile isJsWhitespace).reverse.dropWhile isJsWhitespace).reverse

/-- Characters `encodeURIComponent` leaves unescaped:
letters, digits, and - _ . ! ~ * apostrophe ( ) . -/
def isUriUnreserved (c : Char) : Bool :=
  let n := c.toNat
  decide ((65 ≤ n ∧ n ≤ 90) ∨ (97 ≤ n ∧ n ≤ 122) ∨ (48 ≤ n ∧ n ≤ 57) ∨
    n = 45 ∨ n = 95 ∨ n = 46 ∨ n = 33 ∨ n = 126 ∨ n = 42 ∨ n = 39 ∨ n = 40 ∨ n = 41)

/-- Uppercase hex digit for a value below 16. -/
def hexDigit (n : Nat) : Char :=
  if n < 10 then Char.ofNat (48 + n) else Char.ofNat (55 + n)

/-- UTF-8 encoding of one char as its byte values. -/
def utf8Bytes (c : Char) : List Nat :=
  let n := c.toNat
  if n < 128 then [n]
  else if n < 2048 then [192 + n / 64, 128 + n % 64]
  else if n < 65536 then [224 + n / 4096, 128 + (n / 64) % 64, 128 + n % 64]
  else [240 + n / 262144, 128 + (n / 4096) % 64, 128 + (n / 64) % 64, 128 + n % 64]

/-- Percent-encoding of one byte, uppercase hex as `encodeURIComponent` emits. -/
def pctByte (b : Nat) : String :=
  "%" ++ String.singleton (hexDigit (b / 16)) ++ String.singleton (hexDigit (b % 16))

/-- JS `encodeURIComponent`: unreserved chars pass through, everything else is
percent-encoded byte by byte from its UTF-8 form. -/
def encodeURIComponent (s : String) : String :=
  String.join (s.data.map (fun c =>
    if isUriUnreserved c then String.singleton c
    else String.join ((utf8Bytes c).map pctByte)))

/-- Escape of one char inside a JSON string literal, as `JSON.stringify`. -/
def jsonEscapeChar (c : Char) : String :=
  if c = '"' then "\\\""
  else if c = '\\' then "\\\\"
  else if c = '\n' then "\\n"
  else if c = '\r' then "\\r"
  else if c = '\t' then "\\t"
  else if c.toNat = 8 then "\\b"
  else if c.toNat = 12 then "\\f"
  else if c.toNat < 32 then
    "\\u00" ++ String.singleton (hexDigit (c.toNat / 16)) ++ String.singleton (hexDigit (c.toNat % 16))
  else String.singleton c

/-- JSON string literal with quotes, as `JSON.stringify` renders a string. -/
def jsonQuote (s : String) : String :=
  "\"" ++ String.join (s.data.map jsonEscapeChar) ++ "\""

mutual

/-- `JSON.stringify` for JVal (compact form, no added whitespace). -/
def jsonStringify : JVal → String
  | .jNull => "null"
  | .jBool true => "true"
  | .jBool false => "false"
  | .jNum n => toString n
  | .jStr s => jsonQuote s
  | .jArr l => "[" ++ jsonStringifyElems l ++ "]"
  | .jObj l => "\x7b" ++ jsonStringifyFields l ++ "\x7d"

/-- Comma-joined renderings of array elements. -/
def jsonStringifyElems : List JVal → String
  | [] => ""
  | [v] => jsonStringify v
  | v :: vs => jsonStringify v ++ "," ++ jsonStringifyElems vs

/-- Comma-joined renderings of object fields. -/
def jsonStringifyFields : List (String × JVal) → String
  | [] => ""
  | [p] => jsonQuote p.1 ++ ":" ++ jsonStringify p.2
  | p :: ps => jsonQuote p.1 ++ ":" ++ jsonStringify p.2 ++ "," ++ jsonStringifyFields ps

end

/-- How `executePassthroughRequest` renders one body field for multipart or
URL-encoded form bodies: `typeof value === "object"` (objects, arrays and
null) goes through `JSON.stringify(value)`, anything else through
`String(value)`. -/
def stringifyField : JVal → String
  | .jObj l => jsonStringify (.jObj l)
  | .jArr l => jsonStringify (.jArr l)
  | .jNull => jsonStringify .jNull
  | .jStr s => s
  | .jNum n => toString n
  | .jBool true => "true"
  | .jBool false => "false"

/-! ## Path-Template Resolver (`replacePathVariables`, src/src/helpers.ts 410-436)

The source runs two global regex replaces over the template: first
`/\x7b\x7b([^\x7d]+)\x7d\x7d/g` (double-brace tokens), then
`/\x7b([^\x7d]+)\x7d/g` (single-brace tokens) on the result of the first
pass.  We model each regex scan as a tokenizer producing literal chars and
variable tokens — a match attempt at a position either succeeds (the group is
the maximal nonempty run of non-close-brace chars, which must be followed by
the closing braces; scanning resumes after the match) or the scanner advances
one char, exactly as the regex engine does.  The replacement callback throws
on a missing / null / empty-string value, which we model with Except. -/

/-- One element of a scanned template: a literal char or a `var` token whose
name is already trimmed (the source trims the captured group). -/
inductive PTok where
  | lit (c : Char)
  | var (name : String)
deriving Repr, DecidableEq

/-- The regex class complement of the closing brace. -/
def notCloseBrace (c : Char) : Bool := c ≠ '}'

/-- Scan for `/\x7b\x7b([^\x7d]+)\x7d\x7d/g` matches.  Fuel-indexed for
structural recursion; fuel at least the list length never runs out. -/
def tokenizeDoubleFuel : Nat → List Char → List PTok
  | 0, _ => []
  | _ + 1, [] => []
  | fuel + 1, '{' :: '{' :: rest =>
    match rest.takeWhile notCloseBrace, rest.dropWhile notCloseBrace with
    | r :: rs, '}' :: '}' :: rest2 =>
      .var (String.mk (trimChars (r :: rs))) :: tokenizeDoubleFuel fuel rest2
    | _, _ => .lit '{' :: tokenizeDoubleFuel fuel ('{' :: rest)
  | fuel + 1, c :: cs => .lit c :: tokenizeDoubleFuel fuel cs

/-- Scan for `/\x7b([^\x7d]+)\x7d/g` matches. -/
def tokenizeSingleFuel : Nat → List Char → List PTok
  | 0, _ => []
  | _ + 1, [] => []
  | fuel + 1, '{' :: rest =>
    match rest.takeWhile notCloseBrace, rest.dropWhile notCloseBrace with
    | r :: rs, '}' :: rest2 =>
      .var (String.mk (trimChars (r :: rs))) :: tokenizeSingleFuel fuel rest2
    | _, _ => .lit '{' :: tokenizeSingleFuel fuel rest
  | fuel + 1, c :: cs => .lit c :: tokenizeSingleFuel fuel cs

/-- Double-brace scan of a whole template. -/
def tokenizeDouble (cs : List Char) : List PTok := tokenizeDoubleFuel cs.length cs

/-- Single-brace scan of a whole template. -/
def tokenizeSingle (cs : List Char) : List PTok := tokenizeSingleFuel cs.length cs

/-- The error message thrown for a missing path variable. -/
def missingMsg (name : String) : String := "Missing value for path variable: " ++ name

/-- `variables[name]` lookup; `none` is JS undefined. -/
def lookupVar (vars : List (String × PathVar)) (k : String) : Option PathVar :=
  (vars.find? (fun p => p.1 = k)).map (fun p => p.2)

/-- `value.toString()` for a path-variable value. -/
def pathVarToString : PathVar → String
  | .pvStr s => s
  | .pvNum n => toString n
  | .pvBool true => "true"
  | .pvBool false => "false"
  | .pvNull => "null"

/-- A variable passes the source's guard when it is present and neither null
nor the empty string (zero and false pass). -/
def varProvided (vars : List (String × PathVar)) (name : String) : Bool :=
  match lookupVar vars name with
  | none => false
  | some v => decide (¬(v = .pvNull ∨ v = .pvStr ""))

/-- Run the replacement callback over a scanned template: literals pass
through, each `var` token is checked and substituted with the
percent-encoded string form of its value; the first failing token aborts
with its error (the thrown exception propagates out of `replace`). -/
def renderToks (vars : List (String × PathVar)) : List PTok → Except String (List Char)
  | [] => .ok []
  | .lit c :: ts =>
    match renderToks vars ts with
    | .error e => .error e
    | .ok out => .ok (c :: out)
  | .var name :: ts =>
    match lookupVar vars name with
    | none => .error (missingMsg name)
    | some v =>
      if v = .pvNull ∨ v = .pvStr "" then .error (missingMsg name)
      else
        match renderToks vars ts with
        | .error e => .error e
        | .ok out => .ok ((encodeURIComponent (pathVarToString v)).data ++ out)

/-- `replacePathVariables(path, variables)`: empty template returned as-is
(the falsy-path early return), otherwise the double-brace pass followed by
the single-brace pass on its result. -/
def replacePathVariables (path : String) (vars : List (String × PathVar)) :
    Except String String :=
  if path = "" then .ok path
  else
    match renderToks vars (tokenizeDouble path.data) with
    | .error e => .error e
    | .ok mid =>
      match renderToks vars (tokenizeSingle mid) with
      | .error e => .error e
      | .ok out => .ok (String.mk out)

/-- Names of the variable tokens in a scanned template. -/
def refsOf (ts : List PTok) : List String :=
  ts.filterMap (fun t => match t with | .var n => some n | .lit _ => none)

/-- All variables the two passes reference for a given template and variable
map: the double-brace tokens of the template, then the single-brace tokens of
the first pass's output (per the source, the second regex runs on that
output; its tokens can depend on the substituted values). -/
def referencedVars (path : String) (vars : List (String × PathVar)) : List String :=
  if path = "" then []
  else
    refsOf (tokenizeDouble path.data) ++
      (match renderToks vars (tokenizeDouble path.data) with
       | .ok mid => refsOf (tokenizeSingle mid)
       | .error _ => [])

/-! ## Pagination Engine (`paginateResults`, src/src/helpers.ts 19-46) -/

/-- Upstream page shape (`PaginatedResponse` in types.ts). -/
structure PaginatedResponse (α : Type) where
  rows : List α
  total : Nat
  skip : Nat
  limit : Nat
deriving Repr, DecidableEq

/-- The do/while loop of `paginateResults`: fetch a page, append its rows,
advance `skip` by `limit`, and keep going while the accumulated count is
below the page's reported `total`.  The loop has no bound of its own, so the
model carries fuel counting the remaining fetches; `none` means the loop
would still be running after that many fetches. -/
def paginateLoop (fetchFn : Nat → Nat → PaginatedResponse α) (limit : Nat) :
    Nat → Nat → List α → Option (List α)
  | 0, _, _ => none
  | fuel + 1, skip, acc =>
    if (acc ++ (fetchFn skip limit).rows).length < (fetchFn skip limit).total
    then paginateLoop fetchFn limit fuel (skip + limit) (acc ++ (fetchFn skip limit).rows)
    else some (acc ++ (fetchFn skip limit).rows)

/-- `paginateResults(fetchFn, limit = 100)`: run the loop from `skip = 0`
with an empty accumulator (the default limit of 100 is applied by callers of
this model). -/
def paginateResults (fetchFn : Nat → Nat → PaginatedResponse α) (limit : Nat)
    (fuel : Nat) : Option (List α) :=
  paginateLoop fetchFn limit fuel 0 []

/-- Accumulated row count after the first `n` fetches of the loop (fetch `j`
is issued with `skip = j * limit`). -/
def sumLens (fetchFn : Nat → Nat → PaginatedResponse α) (limit n : Nat) : Nat :=
  ((List.range n).map (fun j => (fetchFn (j * limit) limit).rows.length)).sum

/-! ## API Client state and fetches (src/src/helpers.ts 437-867) -/

/-- A user connection (types.ts `Connection`). -/
structure Connection where
  key : String
  platform : String
  tags : List String
  active : Bool
deriving Repr, DecidableEq

/-- An available platform definition (types.ts `ConnectionDefinition`). -/
structure ConnectionDefinition where
  name : String
  key : String
  platform : String
  platformVersion : String
  description : String
  category : String
  image : String
  tags : List String
  oauth : Bool
  createdAt : Int
  updatedAt : Int
  version : String
  active : Bool
  deprecated : Bool
deriving Repr, DecidableEq

/-- Full action record from the knowledge endpoint (types.ts
`ActionDetails`); `idStr` embeds the source's `_id` field. -/
structure ActionDetails where
  idStr : String
  title : String
  tags : Option (List String)
  knowledge : Option String
  path : String
  method : String
deriving Repr, DecidableEq

/-- `PicaClient.generateHeaders()`: content type plus the auth secret. -/
def generateHeaders (secret : String) : List (String × String) :=
  [("Content-Type", "application/json"), ("x-pica-secret", secret)]

/-- What `fetchConnections` decides to do before any network traffic:
either short-circuit without an upstream call, or issue the paged fetch with
the given query parameters. -/
inductive FetchPlan where
  | noFetch
  | fetch (params : List (String × String))
deriving Repr, DecidableEq

/-- `PicaClient.fetchConnections` (helpers.ts 548-580), up to the network
call.  `connectionKeys`/`identity`/`identityType` are the constructor
options; `none` is an unset option.  The guard mirrors the source: a set
key-list that does not contain the wildcard and is empty short-circuits to no
fetch; otherwise `identity`, `identityType` and (when the key-list is set and
wildcard-free) the comma-joined `key` parameter are added. -/
def fetchConnectionsPlan (connectionKeys : Option (List String))
    (identity identityType : Option String) : FetchPlan :=
  match connectionKeys with
  | some keys =>
    if ¬ keys.contains "*" ∧ keys.length = 0 then .noFetch
    else
      let ps1 := match identity with
        | some i => jsSet [] "identity" i
        | none => []
      let ps2 := match identityType with
        | some t => jsSet ps1 "identityType" t
        | none => ps1
      let ps3 := if keys.contains "*" then ps2
        else jsSet ps2 "key" (String.intercalate "," keys)
      .fetch ps3
  | none =>
    let ps1 := match identity with
      | some i => jsSet [] "identity" i
      | none => []
    let ps2 := match identityType with
      | some t => jsSet ps1 "identityType" t
      | none => ps1
    .fetch ps2

/-- The connection cache after `fetchConnections`: the short-circuit stores
`[]`; otherwise the upstream rows are stored. -/
def fetchConnectionsResult (plan : FetchPlan) (upstreamRows : List Connection) :
    List Connection :=
  match plan with
  | .noFetch => []
  | .fetch _ => upstreamRows

/-- Mutable client state touched by `initialize`/`refresh`. -/
structure PicaClientState where
  connections : List Connection
  connectors : List ConnectionDefinition
  isInitialized : Bool
deriving Repr, DecidableEq

/-- `PicaClient.initialize` (helpers.ts 510-533).  The two
`Promise.allSettled` outcomes are passed in as parameters: an `.ok` carries
the rows the fulfilled fetch stored, an `.error` is the rejection reason of a
failed fetch (whose own catch already reset its cache to `[]` before
rethrowing, and whose rejected branch in `initialize` assigns `[]` again).
Returns the new state and whether the two fetches were issued at all
(`false` on the already-initialized early return). -/
def initializeClient (s : PicaClientState)
    (connectionsResult : Except String (List Connection))
    (connectorsResult : Except String (List ConnectionDefinition)) :
    PicaClientState × Bool :=
  if s.isInitialized then (s, false)
  else
    ({ connections := match connectionsResult with | .ok l => l | .error _ => []
     , connectors := match connectorsResult with | .ok l => l | .error _ => []
     , isInitialized := true }, true)

/-- A thrown JS error as `getActionDetails`'s catch block distinguishes
them: an axios HTTP error (with optional response status/statusText) or a
plain `Error` with a message. -/
inductive JsError where
  | axiosError (status : Option Nat) (statusText : Option String)
  | plainError (msg : String)
deriving Repr, DecidableEq

/-- String interpolation of a possibly-undefined number in JS. -/
def optNatText : Option Nat → String
  | some n => toString n
  | none => "undefined"

/-- String interpolation of a possibly-undefined string in JS. -/
def optStrText : Option String → String
  | some s => s
  | none => "undefined"

/-- The body of `getActionDetails`'s try block (helpers.ts 657-675): the
upstream response either rejects with a JS error, or returns rows
(`response.data?.rows || []`); zero rows throw the specific not-found error,
otherwise the first row is returned. -/
def getActionDetailsInner (actionId : String)
    (resp : Except JsError (List ActionDetails)) : Except JsError ActionDetails :=
  match resp with
  | .error e => .error e
  | .ok rows =>
    match rows with
    | [] => .error (.plainError ("Action with ID " ++ actionId ++ " not found"))
    | r :: _ => .ok r

/-- `PicaClient.getActionDetails` (helpers.ts 652-683): the empty-id guard,
then the try body, then the catch block, which rewraps an axios error with
its status context and turns every other thrown error — including the
not-found error thrown inside the try — into the generic message. -/
def getActionDetails (actionId : String)
    (resp : Except JsError (List ActionDetails)) : Except String ActionDetails :=
  if String.mk (trimChars actionId.data) = "" then .error "Action ID is required"
  else
    match getActionDetailsInner actionId resp with
    | .ok a => .ok a
    | .error (.axiosError st stx) =>
      .error ("Failed to fetch action details: " ++ optNatText st ++ " " ++ optStrText stx)
    | .error (.plainError _) => .error "Failed to fetch action details"

/-! ## Passthrough request construction
(`executePassthroughRequest`, src/src/helpers.ts 718-825) -/

/-- Arguments of `execute_pica_action` (types.ts `ExecutePicaActionArgs`);
optional fields are `Option`, `none` being an omitted property. -/
structure ExecutePicaActionArgs where
  platform : String
  actionId : String
  connectionKey : String
  data : Option JVal
  pathVariables : Option (List (String × PathVar))
  queryParams : Option (List (String × JVal))
  headers : Option (List (String × String))
  isFormData : Option Bool
  isFormUrlEncoded : Option Bool

/-- The body attached to the outbound config: a JSON value passed through,
or the appended multipart / URL-encoded form fields. -/
inductive BodyData where
  | json (v : JVal)
  | form (fields : List (String × String))
  | urlencoded (fields : List (String × String))
deriving Repr

/-- The assembled outbound call (types.ts `RequestConfig`); `data = none`
means the property was never set (GET requests). -/
structure RequestConfig where
  url : String
  method : String
  headers : List (String × String)
  params : Option (List (String × JVal))
  data : Option BodyData
deriving Repr

/-- The config as sent paired with the sanitized copy the caller receives. -/
structure BuiltRequest where
  sent : RequestConfig
  sanitized : RequestConfig
deriving Repr

/-- The fixed redaction marker. -/
def redactedMarker : String := "***REDACTED***"

/-- The sanitized copy (helpers.ts 803-809): spread the config, spread its
headers, overwrite the secret header with the marker. -/
def sanitizeConfig (c : RequestConfig) : RequestConfig :=
  { c with headers := jsSet c.headers "x-pica-secret" redactedMarker }

/-- JS object spread of an arbitrary value into an object literal:
objects contribute their fields, arrays and strings their index-keyed
elements, every other value (including null/undefined) nothing. -/
def jsSpreadEntries : Option JVal → List (String × JVal)
  | some (.jObj l) => l
  | some (.jArr a) => a.enum.map (fun p => (toString p.1, p.2))
  | some (.jStr s) => s.data.enum.map (fun p => (toString p.1, .jStr (String.singleton p.2)))
  | _ => []

/-- The form-field extraction both form branches share: only a truthy,
non-array object contributes entries, each rendered by `stringifyField`. -/
def formFields : Option JVal → List (String × String)
  | some (.jObj l) => l.map (fun p => (p.1, stringifyField p.2))
  | _ => []

/-- `s.startsWith("/")`. -/
def startsWithSlash (s : String) : Bool :=
  match s.data with
  | '/' :: _ => true
  | _ => false

/-- The content type chosen from the two mutually exclusive flags. -/
def passthroughContentType (isFD isFUE : Bool) : String :=
  if isFD then "multipart/form-data"
  else if isFUE then "application/x-www-form-urlencoded"
  else "application/json"

/-- The `requestHeaders` object (helpers.ts 736-742): the generated base
headers, then the three fixed headers, then the caller's headers spread
last. -/
def passthroughHeaders (secret : String) (args : ExecutePicaActionArgs)
    (action : ActionDetails) : List (String × String) :=
  jsMerge
    (jsSet (jsSet (jsSet (generateHeaders secret)
      "x-pica-connection-key" args.connectionKey)
      "x-pica-action-id" action.idStr)
      "Content-Type" (passthroughContentType (args.isFormData.getD false)
        (args.isFormUrlEncoded.getD false)))
    (args.headers.getD [])

/-- The `requestData` value (helpers.ts 751-759): for a custom-tagged action
with a non-GET method, the caller body spread into a fresh object with
`connectionKey` written last; otherwise the caller body unchanged. -/
def passthroughRequestData (args : ExecutePicaActionArgs)
    (action : ActionDetails) : Option JVal :=
  if (action.tags.getD []).contains "custom" ∧ jsToLower action.method ≠ "get" then
    some (.jObj (jvSet (jsSpreadEntries args.data) "connectionKey" (.jStr args.connectionKey)))
  else args.data

/-- Everything `executePassthroughRequest` computes after the path template
has been resolved: headers, URL normalization, the custom-tag body
injection, the per-encoding body, and the sanitized copy.
`formBoundaryHeader` stands for the `content-type` value (with its random
boundary) that `formData.getHeaders()` assigns onto the headers in the
multipart branch. -/
def assembleRequest (secret baseUrl : String) (args : ExecutePicaActionArgs)
    (action : ActionDetails) (formBoundaryHeader : String)
    (finalActionPath : String) : BuiltRequest :=
  let requestHeaders := passthroughHeaders secret args action
  let normalizedPath :=
    if startsWithSlash finalActionPath then finalActionPath else "/" ++ finalActionPath
  let url := baseUrl ++ "/v1/passthrough" ++ normalizedPath
  let requestData := passthroughRequestData args action
  let base : RequestConfig :=
    { url := url, method := action.method, headers := requestHeaders
    , params := args.queryParams, data := none }
  let requestConfig :=
    if jsToLower action.method ≠ "get" then
      if args.isFormData.getD false then
        { base with data := some (.form (formFields requestData))
                  , headers := jsMerge requestHeaders [("content-type", formBoundaryHeader)] }
      else if args.isFormUrlEncoded.getD false then
        { base with data := some (.urlencoded (formFields requestData)) }
      else
        { base with data := requestData.map .json }
    else base
  { sent := requestConfig, sanitized := sanitizeConfig requestConfig }

/-- `PicaClient.executePassthroughRequest` up to the `axios(requestConfig)`
call: resolve the path template when `pathVariables` is supplied (a thrown
MissingVariable error propagates — only the axios call sits inside the try),
then assemble the outbound config and its sanitized copy.  The `action`
parameter plays the preloaded/fetched `ActionDetails`; on network success the
source returns the sanitized config alongside the response body. -/
def executePassthroughRequest (secret baseUrl : String)
    (args : ExecutePicaActionArgs) (action : ActionDetails)
    (formBoundaryHeader : String) : Except String BuiltRequest :=
  match (match args.pathVariables with
         | some vars => replacePathVariables action.path vars
         | none => .ok action.path) with
  | .error e => .error e
  | .ok finalActionPath =>
    .ok (assembleRequest secret baseUrl args action formBoundaryHeader finalActionPath)

/-! ## Lemmas about the JS object model -/

theorem jsGet_map_overwrite_self (l : List (String × String)) (k v : String)
    (h : l.any (fun p => p.1 = k) = true) :
    jsGet (l.map (fun p => if p.1 = k then (k, v) else p)) k = some v := by
  induction l with
  | nil => simp at h
  | cons p l ih =>
    by_cases hp : p.1 = k
    · simp [jsGet, List.find?, hp]
    · simp only [List.any_cons, Bool.or_eq_true, decide_eq_true_eq] at h
      rcases h with h | h
      · exact absurd h hp
      · simpa [jsGet, List.find?, hp] using ih h

theorem jsGet_map_overwrite_other (l : List (String × String)) (k v k2 : String)
    (hne : k2 ≠ k) :
    jsGet (l.map (fun p => if p.1 = k then (k, v) else p)) k2 = jsGet l k2 := by
  have h1 : ¬ (k = k2) := fun h => hne h.symm
  induction l with
  | nil => simp [jsGet]
  | cons p l ih =>
    by_cases hp : p.1 = k
    · rw [List.map_cons, if_pos hp]
      rw [jsGet, jsGet, List.find?_cons_of_neg _ (by simpa using h1),
        List.find?_cons_of_neg _ (by simp [hp, h1])]
      exact ih
    · by_cases hq : p.1 = k2
      · rw [List.map_cons, if_neg hp]
        rw [jsGet, jsGet, List.find?_cons_of_pos _ (by simpa using hq),
          List.find?_cons_of_pos _ (by simpa using hq)]
      · rw [List.map_cons, if_neg hp]
        rw [jsGet, jsGet, List.find?_cons_of_neg _ (by simpa using hq),
          List.find?_cons_of_neg _ (by simpa using hq)]
        exact ih

theorem jsGet_append_single_self (l : List (String × String)) (k v : String)
    (h : l.any (fun p => p.1 = k) = false) :
    jsGet (l ++ [(k, v)]) k = some v := by
  induction l with
  | nil => simp [jsGet, List.find?]
  | cons p l ih =>
    simp only [List.any_cons, Bool.or_eq_false_iff, decide_eq_false_iff_not] at h
    simpa [jsGet, List.find?, h.1] using ih (by simpa using h.2)

theorem jsGet_append_single_other (l : List (String × String)) (k v k2 : String)
    (hne : k2 ≠ k) :
    jsGet (l ++ [(k, v)]) k2 = jsGet l k2 := by
  have h1 : ¬ (k = k2) := fun h => hne h.symm
  induction l with
  | nil => simp [jsGet, List.find?, h1]
  | cons p l ih =>
    by_cases hq : p.1 = k2
    · simp [jsGet, List.find?, hq]
    · simpa [jsGet, List.find?, hq] using ih

theorem jsGet_jsSet_self (l : List (String × String)) (k v : String) :
    jsGet (jsSet l k v) k = some v := by
  by_cases h : l.any (fun p => p.1 = k) = true
  · rw [jsSet, if_pos h]; exact jsGet_map_overwrite_self l k v h
  · rw [jsSet, if_neg h]; exact jsGet_append_single_self l k v (eq_false_of_ne_true h)

theorem jsGet_jsSet_other (l : List (String × String)) (k v k2 : String)
    (hne : k2 ≠ k) : jsGet (jsSet l k v) k2 = jsGet l k2 := by
  by_cases h : l.any (fun p => p.1 = k) = true
  · rw [jsSet, if_pos h]; exact jsGet_map_overwrite_other l k v k2 hne
  · rw [jsSet, if_neg h]; exact jsGet_append_single_other l k v k2 hne

theorem jsGet_keys_eq_of_jsSet (l : List (String × String)) (k v : String)
    (h : l.any (fun p => p.1 = k) = true) :
    (jsSet l k v).map Prod.fst = l.map Prod.fst := by
  simp only [jsSet, h, if_true, List.map_map]
  apply List.map_congr_left
  intro p _
  by_cases hp : p.1 = k <;> simp [hp]

theorem jvGet_map_overwrite_self (l : List (String × JVal)) (k : String) (v : JVal)
    (h : l.any (fun p => p.1 = k) = true) :
    jvGet (l.map (fun p => if p.1 = k then (k, v) else p)) k = some v := by
  induction l with
  | nil => simp at h
  | cons p l ih =>
    by_cases hp : p.1 = k
    · simp [jvGet, List.find?, hp]
    · simp only [List.any_cons, Bool.or_eq_true, decide_eq_true_eq] at h
      rcases h with h | h
      · exact absurd h hp
      · simpa [jvGet, List.find?, hp] using ih h

theorem jvGet_map_overwrite_other (l : List (String × JVal)) (k : String) (v : JVal)
    (k2 : String) (hne : k2 ≠ k) :
    jvGet (l.map (fun p => if p.1 = k then (k, v) else p)) k2 = jvGet l k2 := by
  have h1 : ¬ (k = k2) := fun h => hne h.symm
  induction l with
  | nil => simp [jvGet]
  | cons p l ih =>
    by_cases hp : p.1 = k
    · rw [List.map_cons, if_pos hp]
      rw [jvGet, jvGet, List.find?_cons_of_neg _ (by simpa using h1),
        List.find?_cons_of_neg _ (by simp [hp, h1])]
      exact ih
    · by_cases hq : p.1 = k2
      · rw [List.map_cons, if_neg hp]
        rw [jvGet, jvGet, List.find?_cons_of_pos _ (by simpa using hq),
          List.find?_cons_of_pos _ (by simpa using hq)]
      · rw [List.map_cons, if_neg hp]
        rw [jvGet, jvGet, List.find?_cons_of_neg _ (by simpa using hq),
          List.find?_cons_of_neg _ (by simpa using hq)]
        exact ih

theorem jvGet_append_single_self (l : List (String × JVal)) (k : String) (v : JVal)
    (h : l.any (fun p => p.1 = k) = false) :
    jvGet (l ++ [(k, v)]) k = some v := by
  induction l with
  | nil => simp [jvGet, List.find?]
  | cons p l ih =>
    simp only [List.any_cons, Bool.or_eq_false_iff, decide_eq_false_iff_not] at h
    simpa [jvGet, List.find?, h.1] using ih (by simpa using h.2)

theorem jvGet_append_single_other (l : List (String × JVal)) (k : String) (v : JVal)
    (k2 : String) (hne : k2 ≠ k) :
    jvGet (l ++ [(k, v)]) k2 = jvGet l k2 := by
  have h1 : ¬ (k = k2) := fun h => hne h.symm
  induction l with
  | nil => simp [jvGet, List.find?, h1]
  | cons p l ih =>
    by_cases hq : p.1 = k2
    · simp [jvGet, List.find?, hq]
    · simpa [jvGet, List.find?, hq] using ih

theorem jvGet_jvSet_self (l : List (String × JVal)) (k : String) (v : JVal) :
    jvGet (jvSet l k v) k = some v := by
  by_cases h : l.any (fun p => p.1 = k) = true
  · rw [jvSet, if_pos h]; exact jvGet_map_overwrite_self l k v h
  · rw [jvSet, if_neg h]; exact jvGet_append_single_self l k v (eq_false_of_ne_true h)

theorem jvGet_jvSet_other (l : List (String × JVal)) (k : String) (v : JVal)
    (k2 : String) (hne : k2 ≠ k) : jvGet (jvSet l k v) k2 = jvGet l k2 := by
  by_cases h : l.any (fun p => p.1 = k) = true
  · rw [jvSet, if_pos h]; exact jvGet_map_overwrite_other l k v k2 hne
  · rw [jvSet, if_neg h]; exact jvGet_append_single_other l k v k2 hne

/-! ## Lemmas about the path-template renderer -/

theorem refsOf_nil : refsOf [] = [] := rfl

theorem refsOf_lit (c : Char) (ts : List PTok) : refsOf (.lit c :: ts) = refsOf ts := rfl

theorem refsOf_var (n : String) (ts : List PTok) :
    refsOf (.var n :: ts) = n :: refsOf ts := rfl

theorem renderToks_lit (vars : List (String × PathVar)) (c : Char) (ts : List PTok) :
    renderToks vars (.lit c :: ts) =
      match renderToks vars ts with
      | .error e => .error e
      | .ok out => .ok (c :: out) := rfl

theorem renderToks_var (vars : List (String × PathVar)) (name : String) (ts : List PTok) :
    renderToks vars (.var name :: ts) =
      match lookupVar vars name with
      | none => .error (missingMsg name)
      | some v =>
        if v = .pvNull ∨ v = .pvStr "" then .error (missingMsg name)
        else
          match renderToks vars ts with
          | .error e => .error e
          | .ok out => .ok ((encodeURIComponent (pathVarToString v)).data ++ out) := rfl

theorem renderToks_isOk_iff (vars : List (String × PathVar)) (ts : List PTok) :
    (∃ out, renderToks vars ts = .ok out) ↔
      ∀ n ∈ refsOf ts, varProvided vars n = true := by
  induction ts with
  | nil => simp [renderToks, refsOf]
  | cons t ts ih =>
    cases t with
    | lit c =>
      rw [renderToks_lit, refsOf_lit]
      cases h : renderToks vars ts with
      | error e =>
        constructor
        · rintro ⟨out, hout⟩; cases hout
        · intro hall
          obtain ⟨out, hout⟩ := ih.mpr hall
          rw [hout] at h; cases h
      | ok out =>
        constructor
        · intro _; exact ih.mp ⟨out, h⟩
        · intro _; exact ⟨c :: out, rfl⟩
    | var name =>
      rw [renderToks_var, refsOf_var]
      cases hl : lookupVar vars name with
      | none =>
        dsimp only
        constructor
        · rintro ⟨out, hout⟩; cases hout
        · intro hall
          have hp := hall name (List.mem_cons_self _ _)
          rw [varProvided, hl] at hp; cases hp
      | some v =>
        dsimp only
        by_cases hv : v = .pvNull ∨ v = .pvStr ""
        · rw [if_pos hv]
          constructor
          · rintro ⟨out, hout⟩; cases hout
          · intro hall
            have hp := hall name (List.mem_cons_self _ _)
            rw [varProvided, hl] at hp
            simp [hv] at hp
        · rw [if_neg hv]
          cases h : renderToks vars ts with
          | error e =>
            constructor
            · rintro ⟨out, hout⟩; cases hout
            · intro hall
              obtain ⟨out, hout⟩ := ih.mpr (fun n hn => hall n (List.mem_cons_of_mem _ hn))
              rw [hout] at h; cases h
          | ok out =>
            constructor
            · intro _ n hn
              rcases List.mem_cons.mp hn with rfl | hn
              · rw [varProvided, hl]; simpa using hv
              · exact ih.mp ⟨out, h⟩ n hn
            · intro _; exact ⟨_, rfl⟩

theorem renderToks_error (vars : List (String × PathVar)) (ts : List PTok)
    (e : String) (he : renderToks vars ts = .error e) :
    ∃ n ∈ refsOf ts, varProvided vars n = false ∧ e = missingMsg n := by
  induction ts with
  | nil => cases he
  | cons t ts ih =>
    cases t with
    | lit c =>
      rw [renderToks_lit] at he
      cases h : renderToks vars ts with
      | error e2 =>
        rw [h] at he
        dsimp only at he
        injection he with h2
        subst h2
        obtain ⟨n, hn, hp, hm⟩ := ih h
        exact ⟨n, by rw [refsOf_lit]; exact hn, hp, hm⟩
      | ok out =>
        rw [h] at he
        dsimp only at he
        cases he
    | var name =>
      rw [renderToks_var] at he
      cases hl : lookupVar vars name with
      | none =>
        rw [hl] at he
        dsimp only at he
        refine ⟨name, by rw [refsOf_var]; exact List.mem_cons_self _ _,
          by rw [varProvided, hl], ?_⟩
        injection he with h2
        rw [h2]
      | some v =>
        rw [hl] at he
        dsimp only at he
        by_cases hv : v = .pvNull ∨ v = .pvStr ""
        · rw [if_pos hv] at he
          refine ⟨name, by rw [refsOf_var]; exact List.mem_cons_self _ _,
            by rw [varProvided, hl]; simp [hv], ?_⟩
          injection he with h2
          rw [h2]
        · rw [if_neg hv] at he
          cases h : renderToks vars ts with
          | error e2 =>
            rw [h] at he
            dsimp only at he
            injection he with h2
            subst h2
            obtain ⟨n, hn, hp, hm⟩ := ih h
            exact ⟨n, by rw [refsOf_var]; exact List.mem_cons_of_mem _ hn, hp, hm⟩
          | ok out =>
            rw [h] at he
            dsimp only at he
            cases he

/-- C4: for every template and variable map, `replacePathVariables` succeeds
iff every variable referenced by a double- or single-brace token (the
single-brace tokens being scanned on the first pass's output, as the source
does) is present with a value that is neither null nor the empty string; on
failure the error names the specific missing variable; and on the spec's
examples it substitutes the percent-encoded string forms, with the value 0
valid and substituted. -/
theorem replacePathVariables_spec (path : String) (vars : List (String × PathVar)) :
    ((∃ out, replacePathVariables path vars = .ok out) ↔
      ∀ n ∈ referencedVars path vars, varProvided vars n = true)
    ∧ (∀ e, replacePathVariables path vars = .error e →
        ∃ n ∈ referencedVars path vars, varProvided vars n = false ∧ e = missingMsg n)
    ∧ replacePathVariables "/a/\x7b\x7bx\x7d\x7d/b/\x7by\x7d"
        [("x", .pvStr "1"), ("y", .pvStr "2")] = .ok "/a/1/b/2"
    ∧ replacePathVariables "/a/\x7b\x7bx\x7d\x7d" [("x", .pvNum 0)] = .ok "/a/0" := by
  refine ⟨?_, ?_, rfl, rfl⟩
  · by_cases hp : path = ""
    · simp [replacePathVariables, referencedVars, hp]
    · rw [replacePathVariables, if_neg hp, referencedVars, if_neg hp]
      cases h1 : renderToks vars (tokenizeDouble path.data) with
      | error e1 =>
        dsimp only
        constructor
        · rintro ⟨out, hout⟩; cases hout
        · intro hall
          obtain ⟨n, hn, hpr, _⟩ := renderToks_error vars _ e1 h1
          have := hall n (List.mem_append.mpr (Or.inl hn))
          rw [this] at hpr; cases hpr
      | ok mid =>
        dsimp only
        cases h2 : renderToks vars (tokenizeSingle mid) with
        | error e2 =>
          constructor
          · rintro ⟨out, hout⟩; cases hout
          · intro hall
            obtain ⟨n, hn, hpr, _⟩ := renderToks_error vars _ e2 h2
            have := hall n (List.mem_append.mpr (Or.inr hn))
            rw [this] at hpr; cases hpr
        | ok out =>
          constructor
          · intro _ n hn
            rcases List.mem_append.mp hn with hn | hn
            · exact (renderToks_isOk_iff vars _).mp ⟨mid, h1⟩ n hn
            · exact (renderToks_isOk_iff vars _).mp ⟨_, h2⟩ n hn
          · intro _; exact ⟨_, rfl⟩
  · intro e he
    by_cases hp : path = ""
    · rw [replacePathVariables, if_pos hp] at he; cases he
    · rw [replacePathVariables, if_neg hp] at he
      rw [referencedVars, if_neg hp]
      cases h1 : renderToks vars (tokenizeDouble path.data) with
      | error e1 =>
        rw [h1] at he
        dsimp only [h1]
        injection he with h2
        subst h2
        obtain ⟨n, hn, hpr, hm⟩ := renderToks_error vars _ e1 h1
        exact ⟨n, List.mem_append.mpr (Or.inl hn), hpr, hm⟩
      | ok mid =>
        rw [h1] at he
        dsimp only [h1] at he ⊢
        cases h2 : renderToks vars (tokenizeSingle mid) with
        | error e2 =>
          rw [h2] at he
          dsimp only at he
          injection he with h3
          subst h3
          obtain ⟨n, hn, hpr, hm⟩ := renderToks_error vars _ e2 h2
          exact ⟨n, List.mem_append.mpr (Or.inr hn), hpr, hm⟩
        | ok out =>
          rw [h2] at he
          dsimp only at he
          cases he

/-- C4 witness: the general theorem applied at the spec's example template
and variable map; the concrete substituted output and the error naming the
missing variable are checked alongside. -/
theorem replacePathVariables_spec_witness :
    replacePathVariables "/a/\x7b\x7bx\x7d\x7d/b/\x7by\x7d"
      [("x", .pvStr "1"), ("y", .pvStr "2")] = .ok "/a/1/b/2"
    ∧ replacePathVariables "/a/\x7b\x7bx\x7d\x7d/b/\x7by\x7d"
        [("x", .pvStr "1")] = .error (missingMsg "y") := by
  obtain ⟨out, hout⟩ := (replacePathVariables_spec "/a/\x7b\x7bx\x7d\x7d/b/\x7by\x7d"
    [("x", .pvStr "1"), ("y", .pvStr "2")]).1.mpr (by decide)
  exact ⟨rfl, rfl⟩

/-! ## Lemmas about the pagination loop -/

theorem joinRows_length {α : Type} (fetchFn : Nat → Nat → PaginatedResponse α)
    (limit n : Nat) :
    (((List.range n).map (fun j => (fetchFn (j * limit) limit).rows)).flatten).length =
      sumLens fetchFn limit n := by
  rw [List.length_flatten, sumLens, List.map_map]
  rfl

theorem paginateLoop_collects {α : Type} (fetchFn : Nat → Nat → PaginatedResponse α)
    (limit T k : Nat)
    (htot : ∀ j < k, (fetchFn (j * limit) limit).total = T)
    (hfill : sumLens fetchFn limit k = T)
    (hbefore : ∀ j < k, j + 1 < k → sumLens fetchFn limit (j + 1) < T) :
    ∀ d i, i + d = k → i < k →
      paginateLoop fetchFn limit d (i * limit)
        (((List.range i).map (fun j => (fetchFn (j * limit) limit).rows)).flatten) =
      some (((List.range k).map (fun j => (fetchFn (j * limit) limit).rows)).flatten) := by
  intro d
  induction d with
  | zero => intro i hik hi; omega
  | succ d ih =>
    intro i hik hi
    rw [paginateLoop]
    have hacc : (((List.range i).map (fun j => (fetchFn (j * limit) limit).rows)).flatten
        ++ (fetchFn (i * limit) limit).rows) =
        ((List.range (i + 1)).map (fun j => (fetchFn (j * limit) limit).rows)).flatten := by
      rw [List.range_succ, List.map_append, List.flatten_append]
      simp
    rw [hacc, joinRows_length, htot i hi]
    by_cases hstep : i + 1 = k
    · rw [hstep, hfill, if_neg (lt_irrefl T)]
    · have hi1 : i + 1 < k := by omega
      rw [if_pos (hbefore i hi hi1)]
      have harith : i * limit + limit = (i + 1) * limit := by ring
      rw [harith]
      exact ih (i + 1) (by omega) hi1

/-- C6: for every page sequence reporting one consistent total that the
cumulative row count reaches exactly at page `k` (and not before),
`paginateResults` with fuel for exactly `k` fetches returns the
concatenation of the pages' rows in arrival order — so the loop stops after
page `k` — and the result length equals the reported total. -/
theorem paginateResults_spec {α : Type} (fetchFn : Nat → Nat → PaginatedResponse α)
    (limit T k : Nat) (hk : 0 < k)
    (htot : ∀ j < k, (fetchFn (j * limit) limit).total = T)
    (hfill : sumLens fetchFn limit k = T)
    (hbefore : ∀ j < k, j + 1 < k → sumLens fetchFn limit (j + 1) < T) :
    paginateResults fetchFn limit k =
      some (((List.range k).map (fun j => (fetchFn (j * limit) limit).rows)).flatten)
    ∧ ∀ res, paginateResults fetchFn limit k = some res → res.length = T := by
  have h := paginateLoop_collects fetchFn limit T k htot hfill hbefore k 0 (by omega) hk
  simp only [Nat.zero_mul, List.range_zero, List.map_nil, List.flatten_nil] at h
  refine ⟨h, ?_⟩
  intro res hres
  rw [paginateResults] at hres
  rw [h] at hres
  injection hres with h2
  rw [← h2, joinRows_length, hfill]

/-- Concrete page source for the spec's pagination example: 250 rows served
100 at a time (pages of 100, 100, 50), each page reporting total 250. -/
def pagesOf250 : Nat → Nat → PaginatedResponse Nat := fun skip limit =>
  { rows := (List.range (min limit (250 - skip))).map (fun i => skip + i)
  , total := 250, skip := skip, limit := limit }

set_option maxRecDepth 8000 in
/-- C6 witness: the pagination theorem applied to the 100/100/50 example;
the result exists, is the concatenation of the three pages, and has
length 250. -/
theorem paginateResults_spec_witness :
    paginateResults pagesOf250 100 3 =
      some (((List.range 3).map (fun j => (pagesOf250 (j * 100) 100).rows)).flatten)
    ∧ (((List.range 3).map (fun j => (pagesOf250 (j * 100) 100).rows)).flatten).length
      = 250 := by
  obtain ⟨h1, h2⟩ := paginateResults_spec pagesOf250 100 250 3 (by decide) (by decide)
    (by decide) (by decide)
  exact ⟨h1, h2 _ h1⟩

/-! ## Claims about initialization and fetch scoping -/

/-- C7: `initialize` is total (the model returns a state for every pair of
settle outcomes, mirroring that `Promise.allSettled` never rejects); when not
yet initialized it issues the two fetches, stores each side's rows on
fulfillment and the empty collection on rejection — independently per side —
and always ends initialized; once initialized every further call returns the
state unchanged and issues no fetches. -/
theorem initializeClient_spec (s : PicaClientState)
    (r1 : Except String (List Connection))
    (r2 : Except String (List ConnectionDefinition)) :
    (s.isInitialized = false →
      (initializeClient s r1 r2).1.isInitialized = true
      ∧ (initializeClient s r1 r2).2 = true
      ∧ (initializeClient s r1 r2).1.connections =
          (match r1 with | .ok l => l | .error _ => [])
      ∧ (initializeClient s r1 r2).1.connectors =
          (match r2 with | .ok l => l | .error _ => []))
    ∧ (s.isInitialized = true → initializeClient s r1 r2 = (s, false))
    ∧ (initializeClient s r1 r2).1.isInitialized = true
    ∧ (∀ r3 r4, initializeClient (initializeClient s r1 r2).1 r3 r4 =
        ((initializeClient s r1 r2).1, false)) := by
  by_cases h : s.isInitialized = true
  · simp [initializeClient, h]
  · have h2 : s.isInitialized = false := eq_false_of_ne_true h
    simp [initializeClient, h2]

/-- Sample connection for witnesses. -/
def connSample : Connection :=
  { key := "test::resend::default::abc", platform := "resend", tags := [], active := true }

/-- C7 witness: a fresh client whose connector fetch fails ends initialized,
keeps the fetched connections, and degrades connectors to the empty list. -/
theorem initializeClient_spec_witness :
    (initializeClient ⟨[], [], false⟩ (.ok [connSample]) (.error "boom")).1.isInitialized = true
    ∧ (initializeClient ⟨[], [], false⟩ (.ok [connSample]) (.error "boom")).1.connections = [connSample]
    ∧ (initializeClient ⟨[], [], false⟩ (.ok [connSample]) (.error "boom")).1.connectors = [] := by
  obtain ⟨h1, _, h3, h4⟩ :=
    (initializeClient_spec ⟨[], [], false⟩ (.ok [connSample]) (.error "boom")).1 rfl
  exact ⟨h1, h3, h4⟩

/-- Does `sub` match at the head of `hay`? -/
def strMatchesAt (sub hay : List Char) : Bool :=
  match sub, hay with
  | [], _ => true
  | _ :: _, [] => false
  | s :: ss, h :: hs => decide (s = h) && strMatchesAt ss hs

/-- Does `sub` occur contiguously anywhere in `hay`? -/
def strContainsSub (sub : List Char) : List Char → Bool
  | [] => strMatchesAt sub []
  | h :: t => strMatchesAt sub (h :: t) || strContainsSub sub t

/-- C8 counterexample: with zero rows returned for an id, the surfaced error
is the generic catch-all message, which neither contains the action id nor
the words of the internally thrown not-found error — the claim that the
failure identifies the action id as not found is false. -/
theorem getActionDetails_notFound_counterexample :
    getActionDetails "test-action" (.ok []) = .error "Failed to fetch action details"
    ∧ strContainsSub "test-action".data "Failed to fetch action details".data = false
    ∧ strContainsSub "not found".data "Failed to fetch action details".data = false :=
  ⟨rfl, by decide, by decide⟩

/-- C8 (amended): with a nonblank id and zero rows, `getActionDetails` does
fail, and the try body does throw the specific error naming the id — but the
catch-all rewraps it, so the surfaced error is the generic message; with one
or more rows, the first row is returned. -/
theorem getActionDetails_spec (actionId : String)
    (resp : Except JsError (List ActionDetails))
    (hid : String.mk (trimChars actionId.data) ≠ "") :
    (resp = .ok [] →
      getActionDetails actionId resp = .error "Failed to fetch action details"
      ∧ getActionDetailsInner actionId resp =
          .error (.plainError ("Action with ID " ++ actionId ++ " not found")))
    ∧ (∀ r rs, resp = .ok (r :: rs) → getActionDetails actionId resp = .ok r) := by
  constructor
  · rintro rfl
    exact ⟨by rw [getActionDetails, if_neg hid]; rfl, rfl⟩
  · rintro r rs rfl
    rw [getActionDetails, if_neg hid]
    rfl

/-- Sample action records for witnesses. -/
def actionSampleA : ActionDetails :=
  { idStr := "test-action", title := "First", tags := none, knowledge := none
  , path := "/a", method := "GET" }

/-- A duplicate row with the same id but different content. -/
def actionSampleB : ActionDetails :=
  { idStr := "test-action", title := "Second", tags := none, knowledge := none
  , path := "/b", method := "POST" }

/-- C8 witness: the amended behaviour at a concrete id, both for zero rows
and for two duplicate rows (first wins). -/
theorem getActionDetails_spec_witness :
    (getActionDetails "test-action" (.ok []) = .error "Failed to fetch action details"
      ∧ getActionDetailsInner "test-action" (.ok []) =
          .error (.plainError "Action with ID test-action not found"))
    ∧ getActionDetails "test-action" (.ok [actionSampleA, actionSampleB]) = .ok actionSampleA :=
  ⟨(getActionDetails_spec "test-action" (.ok []) (by decide)).1 rfl,
   (getActionDetails_spec "test-action" (.ok [actionSampleA, actionSampleB])
      (by decide)).2 actionSampleA [actionSampleB] rfl⟩

/-- C3: connection-key scoping of `fetchConnections`: an empty configured
key list short-circuits (no upstream request, empty cache); a non-empty
wildcard-free list restricts the upstream query with a `key` parameter equal
to the comma-join of exactly those keys; a list containing the wildcard
issues an unrestricted fetch with no `key` parameter. -/
theorem fetchConnections_scoping (keys : List String)
    (identity identityType : Option String) (rows : List Connection) :
    (keys = [] →
      fetchConnectionsPlan (some keys) identity identityType = .noFetch
      ∧ fetchConnectionsResult (fetchConnectionsPlan (some keys) identity identityType) rows = [])
    ∧ (keys ≠ [] → keys.contains "*" = false →
      ∃ ps, fetchConnectionsPlan (some keys) identity identityType = .fetch ps
        ∧ jsGet ps "key" = some (String.intercalate "," keys))
    ∧ (keys.contains "*" = true →
      ∃ ps, fetchConnectionsPlan (some keys) identity identityType = .fetch ps
        ∧ jsGet ps "key" = none) := by
  refine ⟨?_, ?_, ?_⟩
  · rintro rfl
    exact ⟨rfl, rfl⟩
  · intro hne hstar
    have hcond : ¬(¬ keys.contains "*" = true ∧ keys.length = 0) := by
      rintro ⟨-, hlen⟩
      exact hne (List.length_eq_zero.mp hlen)
    rw [fetchConnectionsPlan.eq_def]
    dsimp only
    rw [if_neg hcond, if_neg (by rw [hstar]; exact Bool.false_ne_true)]
    exact ⟨_, rfl, jsGet_jsSet_self _ _ _⟩
  · intro hstar
    have hcond : ¬(¬ keys.contains "*" = true ∧ keys.length = 0) := by
      rintro ⟨hs, -⟩
      exact hs hstar
    rw [fetchConnectionsPlan.eq_def]
    dsimp only
    rw [if_neg hcond, if_pos hstar]
    refine ⟨_, rfl, ?_⟩
    cases identity <;> cases identityType <;>
      simp [jsGet, jsSet, List.find?]

/-- C3 witness: the three scoping modes at concrete key lists, with the
restricted query parameter list and the wildcard parameter list explicit. -/
theorem fetchConnections_scoping_witness :
    (fetchConnectionsPlan (some []) none none = .noFetch
      ∧ fetchConnectionsResult (fetchConnectionsPlan (some []) none none) [connSample] = [])
    ∧ fetchConnectionsPlan (some ["k1", "k2"]) none none = .fetch [("key", "k1,k2")]
    ∧ jsGet [("key", "k1,k2")] "key" = some "k1,k2"
    ∧ fetchConnectionsPlan (some ["*"]) none none = .fetch []
    ∧ jsGet ([] : List (String × String)) "key" = none := by
  obtain ⟨ps, hps, hkey⟩ := (fetchConnections_scoping ["k1", "k2"] none none []).2.1
    (by decide) (by decide)
  obtain ⟨ps2, hps2, hkey2⟩ := (fetchConnections_scoping ["*"] none none []).2.2 (by decide)
  exact ⟨(fetchConnections_scoping [] none none [connSample]).1 rfl, rfl, rfl, rfl, rfl⟩

/-! ## Lemmas about the assembled passthrough request -/

theorem assembleRequest_sanitized_eq (secret baseUrl : String)
    (args : ExecutePicaActionArgs) (action : ActionDetails) (b fp : String) :
    (assembleRequest secret baseUrl args action b fp).sanitized =
      sanitizeConfig (assembleRequest secret baseUrl args action b fp).sent := rfl

theorem assembleRequest_sent_url (secret baseUrl : String)
    (args : ExecutePicaActionArgs) (action : ActionDetails) (b fp : String) :
    (assembleRequest secret baseUrl args action b fp).sent.url =
      baseUrl ++ "/v1/passthrough" ++ (if startsWithSlash fp then fp else "/" ++ fp) := by
  rw [assembleRequest]
  dsimp only
  split
  · split
    · rfl
    · split <;> rfl
  · rfl

theorem assembleRequest_sent_data_json (secret baseUrl : String)
    (args : ExecutePicaActionArgs) (action : ActionDetails) (b fp : String)
    (hget : jsToLower action.method ≠ "get")
    (hFD : args.isFormData.getD false = false)
    (hFUE : args.isFormUrlEncoded.getD false = false) :
    (assembleRequest secret baseUrl args action b fp).sent.data =
      (passthroughRequestData args action).map .json := by
  rw [assembleRequest]
  dsimp only
  rw [if_pos hget, hFD, hFUE]
  rfl

theorem assembleRequest_sent_data_urlencoded (secret baseUrl : String)
    (args : ExecutePicaActionArgs) (action : ActionDetails) (b fp : String)
    (hget : jsToLower action.method ≠ "get")
    (hFD : args.isFormData.getD false = false)
    (hFUE : args.isFormUrlEncoded.getD false = true) :
    (assembleRequest secret baseUrl args action b fp).sent.data =
      some (.urlencoded (formFields (passthroughRequestData args action))) := by
  rw [assembleRequest]
  dsimp only
  rw [if_pos hget, hFD, hFUE]
  rfl

theorem assembleRequest_sent_data_get (secret baseUrl : String)
    (args : ExecutePicaActionArgs) (action : ActionDetails) (b fp : String)
    (hget : jsToLower action.method = "get") :
    (assembleRequest secret baseUrl args action b fp).sent.data = none := by
  rw [assembleRequest]
  dsimp only
  rw [if_neg (by rw [hget]; exact fun h => h rfl)]

theorem executePassthrough_ok_shape (secret baseUrl : String)
    (args : ExecutePicaActionArgs) (action : ActionDetails) (boundary : String)
    (br : BuiltRequest)
    (hok : executePassthroughRequest secret baseUrl args action boundary = .ok br) :
    br.sanitized = sanitizeConfig br.sent := by
  rw [executePassthroughRequest] at hok
  cases hm : (match args.pathVariables with
      | some vars => replacePathVariables action.path vars
      | none => .ok action.path) with
  | error e => rw [hm] at hok; cases hok
  | ok fp =>
    rw [hm] at hok
    dsimp only at hok
    injection hok with h2
    rw [← h2]
    rfl

theorem any_key_of_jsGet_ne_none (l : List (String × String)) (k : String)
    (h : jsGet l k ≠ none) : l.any (fun p => p.1 = k) = true := by
  rw [jsGet] at h
  cases hf : l.find? (fun p => p.1 = k) with
  | none => rw [hf] at h; simp at h
  | some p =>
    have hmem := List.mem_of_find?_eq_some hf
    have hpred := List.find?_some hf
    exact List.any_eq_true.mpr ⟨p, hmem, hpred⟩

/-! ## Claims about the passthrough request -/

/-- C10: when `pathVariables` is omitted, no template resolution happens:
the call always succeeds (no MissingVariable error even for templates that
still contain tokens) and the outbound URL uses the action's path verbatim,
up to the leading-slash normalization. -/
theorem executePassthrough_noPathVars (secret baseUrl : String)
    (args : ExecutePicaActionArgs) (action : ActionDetails) (boundary : String)
    (h : args.pathVariables = none) :
    ∃ br, executePassthroughRequest secret baseUrl args action boundary = .ok br
      ∧ br.sent.url = baseUrl ++ "/v1/passthrough" ++
          (if startsWithSlash action.path then action.path else "/" ++ action.path) := by
  rw [executePassthroughRequest, h]
  dsimp only
  exact ⟨_, rfl, assembleRequest_sent_url secret baseUrl args action boundary action.path⟩

/-- Action whose path still contains an unresolved single-brace token. -/
def tokenPathAction : ActionDetails :=
  { idStr := "act-tok", title := "Tok", tags := none, knowledge := none
  , path := "/a/\x7bvar\x7d/b", method := "GET" }

/-- Arguments that omit `pathVariables` (and everything else optional). -/
def noPvArgs : ExecutePicaActionArgs :=
  { platform := "p", actionId := "act-tok", connectionKey := "ck", data := none
  , pathVariables := none, queryParams := none, headers := none
  , isFormData := none, isFormUrlEncoded := none }

/-- C10 witness: with `pathVariables` omitted the unresolved token survives
verbatim in the outbound URL and no error is raised. -/
theorem executePassthrough_noPathVars_witness :
    executePassthroughRequest "s" "https://api.picaos.com" noPvArgs tokenPathAction "b"
      = .ok (assembleRequest "s" "https://api.picaos.com" noPvArgs tokenPathAction "b"
          tokenPathAction.path)
    ∧ (assembleRequest "s" "https://api.picaos.com" noPvArgs tokenPathAction "b"
        tokenPathAction.path).sent.url
      = "https://api.picaos.com/v1/passthrough/a/\x7bvar\x7d/b" := by
  obtain ⟨br, h1, h2⟩ := executePassthrough_noPathVars "s" "https://api.picaos.com"
    noPvArgs tokenPathAction "b" rfl
  have hbr : br = assembleRequest "s" "https://api.picaos.com" noPvArgs tokenPathAction "b"
      tokenPathAction.path := Except.ok.inj (h1.symm.trans rfl)
  subst hbr
  exact ⟨h1, h2.trans rfl⟩

/-- C5: for a custom-tagged action with a non-GET method (JSON body mode),
the outbound body is the caller body merged with a `connectionKey` field set
to the connection key, no caller field other than `connectionKey` disturbed;
for a GET method the request carries no body at all, whatever the data or
tags. -/
theorem executePassthrough_customBody (secret baseUrl : String)
    (args : ExecutePicaActionArgs) (action : ActionDetails) (boundary : String)
    (hpv : args.pathVariables = none) :
    ((action.tags.getD []).contains "custom" = true →
      jsToLower action.method ≠ "get" →
      args.isFormData.getD false = false →
      args.isFormUrlEncoded.getD false = false →
      ∀ l, args.data = some (.jObj l) →
      ∃ br m, executePassthroughRequest secret baseUrl args action boundary = .ok br
        ∧ br.sent.data = some (.json (.jObj m))
        ∧ jvGet m "connectionKey" = some (.jStr args.connectionKey)
        ∧ ∀ k, k ≠ "connectionKey" → jvGet m k = jvGet l k)
    ∧ (jsToLower action.method = "get" →
      ∃ br, executePassthroughRequest secret baseUrl args action boundary = .ok br
        ∧ br.sent.data = none) := by
  constructor
  · intro hcustom hget hFD hFUE l hdata
    rw [executePassthroughRequest, hpv]
    dsimp only
    refine ⟨_, jvSet (jsSpreadEntries args.data) "connectionKey" (.jStr args.connectionKey),
      rfl, ?_, jvGet_jvSet_self _ _ _, ?_⟩
    · rw [assembleRequest_sent_data_json secret baseUrl args action boundary action.path
        hget hFD hFUE, passthroughRequestData, if_pos ⟨hcustom, hget⟩]
      rfl
    · intro k hk
      rw [jvGet_jvSet_other _ _ _ _ hk, hdata]
      rfl
  · intro hget
    rw [executePassthroughRequest, hpv]
    dsimp only
    exact ⟨_, rfl, assembleRequest_sent_data_get secret baseUrl args action boundary
      action.path hget⟩

/-- A custom-tagged POST action. -/
def customAction : ActionDetails :=
  { idStr := "act-c", title := "Custom", tags := some ["custom"], knowledge := none
  , path := "/x", method := "POST" }

/-- Arguments with body `\x7b a: 1 \x7d` and connection key `ck`. -/
def customArgs : ExecutePicaActionArgs :=
  { platform := "p", actionId := "act-c", connectionKey := "ck"
  , data := some (.jObj [("a", .jNum 1)])
  , pathVariables := none, queryParams := none, headers := none
  , isFormData := none, isFormUrlEncoded := none }

/-- C5 witness: the custom POST example yields body
`\x7b a: 1, connectionKey: "ck" \x7d`; the same action with method GET
carries no body. -/
theorem executePassthrough_customBody_witness :
    jvGet [("a", .jNum 1), ("connectionKey", .jStr "ck")] "connectionKey" = some (.jStr "ck")
    ∧ jvGet [("a", .jNum 1), ("connectionKey", .jStr "ck")] "a" = some (.jNum 1)
    ∧ (assembleRequest "s" "u" customArgs
        { customAction with method := "GET" } "b" "/x").sent.data = none := by
  obtain ⟨br, m, h1, h2, h3, h4⟩ :=
    (executePassthrough_customBody "s" "u" customArgs customAction "b" rfl).1
      rfl (by decide) rfl rfl [("a", .jNum 1)] rfl
  obtain ⟨br2, h5, h6⟩ :=
    (executePassthrough_customBody "s" "u" customArgs
      { customAction with method := "GET" } "b" rfl).2 rfl
  have hbr2 : br2 = assembleRequest "s" "u" customArgs
      { customAction with method := "GET" } "b" "/x" := Except.ok.inj (h5.symm.trans rfl)
  subst hbr2
  exact ⟨rfl, rfl, h6⟩

/-- C9: with `isFormUrlEncoded` set (and not `isFormData`), a non-GET method
and an object body, each body field becomes a URL-encoded form field:
object-valued fields are stringified to JSON, scalar fields to their string
form. -/
theorem executePassthrough_formUrlEncoded (secret baseUrl : String)
    (args : ExecutePicaActionArgs) (action : ActionDetails) (boundary : String)
    (hpv : args.pathVariables = none)
    (hcustom : (action.tags.getD []).contains "custom" = false)
    (hget : jsToLower action.method ≠ "get")
    (hFD : args.isFormData.getD false = false)
    (hFUE : args.isFormUrlEncoded.getD false = true)
    (l : List (String × JVal)) (hdata : args.data = some (.jObj l)) :
    ∃ br, executePassthroughRequest secret baseUrl args action boundary = .ok br
      ∧ br.sent.data =
          some (.urlencoded (l.map (fun p => (p.1, stringifyField p.2)))) := by
  rw [executePassthroughRequest, hpv]
  dsimp only
  refine ⟨_, rfl, ?_⟩
  rw [assembleRequest_sent_data_urlencoded secret baseUrl args action boundary action.path
    hget hFD hFUE]
  rw [passthroughRequestData, if_neg (by rintro ⟨hc, -⟩; rw [hcustom] at hc; cases hc)]
  rw [hdata]
  rfl

/-- A plain POST action (no custom tag). -/
def postAction : ActionDetails :=
  { idStr := "act-p", title := "Post", tags := none, knowledge := none
  , path := "/x", method := "POST" }

/-- Form-URL-encoded arguments with the spec's example body. -/
def fueArgs : ExecutePicaActionArgs :=
  { platform := "p", actionId := "act-p", connectionKey := "ck"
  , data := some (.jObj [("a", .jObj [("b", .jNum 1)]), ("c", .jStr "x")])
  , pathVariables := none, queryParams := none, headers := none
  , isFormData := none, isFormUrlEncoded := some true }

/-- C9 witness: the example body produces field `a` as the JSON string of
the nested object and field `c` as the plain string. -/
theorem executePassthrough_formUrlEncoded_witness :
    (assembleRequest "s" "u" fueArgs postAction "b" "/x").sent.data =
      some (.urlencoded [("a", "\x7b\"b\":1\x7d"), ("c", "x")]) := by
  obtain ⟨br, h1, h2⟩ := executePassthrough_formUrlEncoded "s" "u" fueArgs postAction "b"
    rfl rfl (by decide) rfl rfl [("a", .jObj [("b", .jNum 1)]), ("c", .jStr "x")] rfl
  have hbr : br = assembleRequest "s" "u" fueArgs postAction "b" "/x" :=
    Except.ok.inj (h1.symm.trans rfl)
  subst hbr
  exact h2.trans rfl

/-- C2: on every successful build, the sanitized config returned to the
caller carries the fixed redaction marker in the secret header, agrees with
the sent config on every other header lookup, has the same header keys in
the same order (when the sent headers include the secret header), and is
identical in URL, method, query params and body; sanitization constructs a
fresh config rather than changing the sent one. -/
theorem sanitizedConfig_spec (secret baseUrl : String) (args : ExecutePicaActionArgs)
    (action : ActionDetails) (boundary : String) (br : BuiltRequest)
    (hok : executePassthroughRequest secret baseUrl args action boundary = .ok br)
    (hsec : jsGet br.sent.headers "x-pica-secret" ≠ none) :
    jsGet br.sanitized.headers "x-pica-secret" = some redactedMarker
    ∧ (∀ k, k ≠ "x-pica-secret" → jsGet br.sanitized.headers k = jsGet br.sent.headers k)
    ∧ br.sanitized.headers.map Prod.fst = br.sent.headers.map Prod.fst
    ∧ br.sanitized.url = br.sent.url
    ∧ br.sanitized.method = br.sent.method
    ∧ br.sanitized.params = br.sent.params
    ∧ br.sanitized.data = br.sent.data := by
  have hs := executePassthrough_ok_shape secret baseUrl args action boundary br hok
  rw [hs]
  exact ⟨jsGet_jsSet_self _ _ _,
    fun k hk => jsGet_jsSet_other _ _ _ k hk,
    jsGet_keys_eq_of_jsSet _ _ _ (any_key_of_jsGet_ne_none _ _ hsec),
    rfl, rfl, rfl, rfl⟩

/-- C2 witness: at a concrete successful build, the sanitized copy redacts
the secret header and leaves another header lookup unchanged. -/
theorem sanitizedConfig_spec_witness :
    jsGet (assembleRequest "s3cr3t" "u" noPvArgs tokenPathAction "b"
      tokenPathAction.path).sanitized.headers "x-pica-secret" = some redactedMarker
    ∧ jsGet (assembleRequest "s3cr3t" "u" noPvArgs tokenPathAction "b"
        tokenPathAction.path).sanitized.headers "x-pica-connection-key"
      = jsGet (assembleRequest "s3cr3t" "u" noPvArgs tokenPathAction "b"
          tokenPathAction.path).sent.headers "x-pica-connection-key" := by
  obtain ⟨h1, h2, -⟩ := sanitizedConfig_spec "s3cr3t" "u" noPvArgs tokenPathAction "b"
    (assembleRequest "s3cr3t" "u" noPvArgs tokenPathAction "b" tokenPathAction.path)
    rfl (by decide)
  exact ⟨h1, h2 "x-pica-connection-key" (by decide)⟩

/-- The action used for the header-spoofing input. -/
def spoofAction : ActionDetails :=
  { idStr := "act1", title := "Spoof", tags := none, knowledge := none
  , path := "/x", method := "POST" }

/-- Arguments whose caller-supplied headers carry an `x-pica-secret` key. -/
def spoofArgs : ExecutePicaActionArgs :=
  { platform := "p", actionId := "act1", connectionKey := "ck", data := none
  , pathVariables := none, queryParams := none
  , headers := some [("x-pica-secret", "attacker-secret")]
  , isFormData := none, isFormUrlEncoded := none }

/-- C1: the code violates the claim.  Caller headers are spread last into
`requestHeaders` with no re-assertion of the secret, so a caller-supplied
`x-pica-secret` key overrides the configured secret in the config that is
sent: with configured secret `configured-secret` and caller header
`x-pica-secret: attacker-secret`, the outbound secret header is the
attacker's value, which differs from the configured secret. -/
theorem secretHeader_spoofable :
    (executePassthroughRequest "configured-secret" "https://api.picaos.com"
        spoofArgs spoofAction "b").map
      (fun br => jsGet br.sent.headers "x-pica-secret") = .ok (some "attacker-secret")
    ∧ ("attacker-secret" == "configured-secret") = false := ⟨rfl, rfl⟩

end PicaMcp
